import Mathlib

set_option maxHeartbeats 1000000
set_option maxRecDepth 4000

/-- Strings are modelled as lists of Unicode scalar values, matching the
character-level view used by the Rust string operations in the source. -/
abbrev Str := List Char

/-- The single-quote character, `'` (U+0027). -/
def sqc : Char := Char.ofNat 39

/-- Rust `str::replace` with a single-character pattern `p`: every occurrence
of `p` is replaced by the string `r`, all other characters kept. -/
def replaceChar (p : Char) (r : Str) : Str → Str
  | [] => []
  | c :: cs => (if c = p then r else [c]) ++ replaceChar p r cs

/-- Rust `char`-level Unicode uppercasing (as performed by
`str::to_uppercase`), given as an explicit table on the Basic Latin and
Latin-1 Supplement blocks: ASCII `a`..`z` map down by 32, `µ` maps to the
Greek capital Mu, `ß` expands to `SS`, `à`..`þ` (except the division sign)
map down by 32, and `ÿ` maps to `Ÿ`.  Characters above U+00FF are left
unchanged here; of those, only uncased characters appear in this
development, for which the Unicode mapping is also the identity. -/
def rustCharToUpper (c : Char) : Str :=
  if 97 ≤ c.toNat ∧ c.toNat ≤ 122 then [Char.ofNat (c.toNat - 32)]
  else if c.toNat = 181 then [Char.ofNat 924]
  else if c.toNat = 223 then ['S', 'S']
  else if 224 ≤ c.toNat ∧ c.toNat ≤ 254 ∧ c.toNat ≠ 247 then [Char.ofNat (c.toNat - 32)]
  else if c.toNat = 255 then [Char.ofNat 376]
  else [c]

/-- Rust `str::to_uppercase`: concatenation of the per-character mapping. -/
def strToUpper (s : Str) : Str := (s.map rustCharToUpper).flatten

/-- The identifier normalization applied to entry keys before projection,
from `entries_to_env_format`, `show_preview` and `export_shell`:
`key.to_uppercase().replace('-', "_").replace(' ', "_")`. -/
def normKey (k : Str) : Str :=
  replaceChar ' ' ['_'] (replaceChar '-' ['_'] (strToUpper k))

/-- A stored entry, from `skate.rs`: a key/value pair of strings. -/
structure SkateEntry where
  key : Str
  value : Str
deriving DecidableEq

/-- Model of `EnvGenerator::quote_value` from `env_gen.rs`: values containing a
space, a newline or a double quote are wrapped in double quotes with inner
double quotes escaped as backslash-quote; other values are kept bare. -/
def EnvGenerator.quote_value (value : Str) : Str :=
  if value.contains ' ' || value.contains '\n' || value.contains '"' then
    '"' :: replaceChar '"' ['\\', '"'] value ++ ['"']
  else
    value

/-- One `KEY=VALUE` line, as built inside `entries_to_env_format` (and
identically inside `show_preview` and the plain-text rendering of
`ColoredOutput::format_env_line`). -/
def EnvGenerator.envLine (e : SkateEntry) : Str :=
  normKey e.key ++ '=' :: EnvGenerator.quote_value e.value

/-- Rust `Vec::join("\n")`: the lines joined by single newlines, with no
trailing newline. -/
def joinNl : List Str → Str
  | [] => []
  | [l] => l
  | l :: l2 :: rest => l ++ '\n' :: joinNl (l2 :: rest)

/-- Model of `EnvGenerator::entries_to_env_format` from `env_gen.rs`. -/
def EnvGenerator.entries_to_env_format (es : List SkateEntry) : Str :=
  joinNl (es.map EnvGenerator.envLine)

/-- The prefix filtering performed by `generate_env_file`, `show_preview`
and `export_shell`: keep the entries whose original key starts with the
given text (Rust `str::starts_with`); no filter keeps everything. -/
def applyFilter (fl : Option Str) (es : List SkateEntry) : List SkateEntry :=
  match fl with
  | some pre => es.filter (fun e => pre.isPrefixOf e.key)
  | none => es

/-- A flat model of the files written by the generator: contents indexed by
path. -/
abbrev FileSys := Str → Option Str

/-- Model of `EnvGenerator::generate_env_file` from `env_gen.rs`, with its
filesystem effect made explicit: the listed entries are filtered by the
optional key prefix, rendered with `entries_to_env_format`, and the result
is written (unconditionally, replacing any previous contents) to the output
path; the reported count is the number of filtered entries. -/
def EnvGenerator.generate_env_file (es : List SkateEntry) (path : Str)
    (fl : Option Str) (fs : FileSys) : FileSys × Nat :=
  let filtered := applyFilter fl es
  let content := EnvGenerator.entries_to_env_format filtered
  (fun p => if p = path then some content else fs p, filtered.length)

/-- The warning printed by `show_preview` when nothing matches. -/
def noEntriesStr : Str := "No entries found".data

/-- The header line printed by `show_preview`. -/
def previewHeaderStr : Str := "Preview of environment variables:".data

/-- The trailing count line printed by `show_preview` (plain-text rendering
of the styled output). -/
def infoLineStr (n : Nat) : Str :=
  "Info: ".data ++ (Nat.repr n).data ++ " variables total".data

/-- Model of `EnvGenerator::show_preview` from `env_gen.rs`: the list of
lines it prints (one list element per `println!`), with the styled output
sink rendered as plain text: if no entry survives the filter it prints the
warning alone; otherwise a header, a blank line, one `KEY=VALUE` line per
entry, a blank line, and a count line. -/
def EnvGenerator.show_preview_lines (es : List SkateEntry) (fl : Option Str) :
    List Str :=
  let filtered := applyFilter fl es
  if filtered.isEmpty then [noEntriesStr]
  else
    previewHeaderStr :: [] :: filtered.map EnvGenerator.envLine
      ++ ([] :: [infoLineStr filtered.length])

/-- The text a sequence of `println!` calls emits: each line followed by a
newline. -/
def printedText (lines : List Str) : Str :=
  (lines.map (fun l => l ++ ['\n'])).flatten

/-- Model of `EnvGenerator::shell_escape` from `env_gen.rs`: the value
wrapped in single quotes, with every inner single quote replaced by the
four characters quote, backslash, quote, quote. -/
def EnvGenerator.shell_escape (value : Str) : Str :=
  sqc :: replaceChar sqc [sqc, '\\', sqc, sqc] value ++ [sqc]

/-- One `export KEY=ESCAPED` line as printed by `export_shell`. -/
def EnvGenerator.export_line (e : SkateEntry) : Str :=
  "export ".data ++ normKey e.key ++ '=' :: EnvGenerator.shell_escape e.value

/-- Model of `EnvGenerator::export_shell` from `env_gen.rs`: the list of
lines it prints for the already-listed entries after prefix filtering. -/
def EnvGenerator.export_shell_lines (es : List SkateEntry) (fl : Option Str) :
    List Str :=
  (applyFilter fl es).map EnvGenerator.export_line

/-- The `\"` → `"` rewriting of the standard `KEY="VALUE"` .env parsing
rule (the inverse direction claimed for `quote_value`): scanning left to
right, each backslash-double-quote pair denotes one double quote. -/
def unescapeDq : Str → Str
  | [] => []
  | [c] => [c]
  | c1 :: c2 :: rest =>
    if c1 = '\\' ∧ c2 = '"' then '"' :: unescapeDq rest
    else c1 :: unescapeDq (c2 :: rest)

/-- The standard `KEY="VALUE"` value-parsing rule: a token that starts and
ends with a double quote (and has at least the two delimiters) is read as
its inside with `\"` unescaped; a bare token is read as itself. -/
def parseEnvValue (t : Str) : Str :=
  match t with
  | c0 :: c :: rest =>
    if c0 = '"' ∧ (c :: rest).getLast? = some '"' then
      unescapeDq ((c :: rest).dropLast)
    else t
  | _ => t

/-- The scanner state of the POSIX word interpreter: inside a
single-quoted segment, outside any quoting, or just after a backslash
outside quotes. -/
inductive ShState where
  | inQ : ShState
  | outQ : ShState
  | esc : ShState

/-- POSIX shell word unquoting, restricted to the constructs the emitted
`export` lines use: single-quoted segments are literal up to the closing
quote, a backslash outside quotes escapes the next character, and all other
characters outside quotes stand for themselves.  `none` signals an
unterminated construct. -/
def shUnquote : ShState → Str → Option Str
  | ShState.inQ, [] => none
  | ShState.inQ, c :: rest =>
    if c = sqc then shUnquote ShState.outQ rest
    else (shUnquote ShState.inQ rest).map (fun t => c :: t)
  | ShState.outQ, [] => some []
  | ShState.outQ, c :: rest =>
    if c = sqc then shUnquote ShState.inQ rest
    else if c = '\\' then shUnquote ShState.esc rest
    else (shUnquote ShState.outQ rest).map (fun t => c :: t)
  | ShState.esc, [] => none
  | ShState.esc, d :: rest => (shUnquote ShState.outQ rest).map (fun t => d :: t)

/-- Modelled from the spec: the storage engine's store (file `storage.rs`
is not part of the sources at hand; only its callers are).  A store maps a
database name and a key to an optional value (§3 of the spec). -/
abbrev StoreMap := Str → Str → Option Str

/-- Modelled from the spec: the validation failures of the storage engine
(§4.2, §7). -/
inductive StorageError where
  | invalidName : StorageError
  | valueTooLarge : StorageError

/-- UTF-8 byte length of a string. -/
def utf8Len (s : Str) : Nat := (s.map Char.utf8Size).sum

/-- Modelled from the spec (§4.2): a key or database name must be
non-empty, contain no `@` and no ASCII NUL, and be at most 512 bytes. -/
def validName (s : Str) : Bool :=
  !s.isEmpty && !s.contains '@' && !s.contains (Char.ofNat 0)
    && utf8Len s ≤ 512

/-- Modelled from the spec (§4.2): a value must be at most 1 MiB. -/
def validValue (v : Str) : Bool := utf8Len v ≤ 1048576

/-- The name of the distinguished default database. -/
def defaultDb : Str := "default".data

/-- An absent database argument defaults to `default` (spec §4.2). -/
def dbOrDefault : Option Str → Str
  | none => defaultDb
  | some d => d

/-- Modelled from the spec: `Storage::set` (§4.2) — after validating the
key, database name and value, the entry is stored, replacing any previous
value of the key in that database; nothing else changes. -/
def Storage.set (key value : Str) (db : Option Str) (s : StoreMap) :
    Except StorageError StoreMap :=
  let d := dbOrDefault db
  if validName key && validName d then
    if validValue value then
      Except.ok (fun d' k' => if d' = d ∧ k' = key then some value else s d' k')
    else Except.error StorageError.valueTooLarge
  else Except.error StorageError.invalidName

/-- Modelled from the spec: `Storage::get` (§4.2) — the stored value, or a
not-found signal as data, with no normalization of the value. -/
def Storage.get (key : Str) (db : Option Str) (s : StoreMap) : Option Str :=
  s (dbOrDefault db) key

/-- A sequence of `set` operations on one key and database, performed left
to right, stopping at the first failure. -/
def Storage.setMany (key : Str) (db : Option Str) :
    List Str → StoreMap → Except StorageError StoreMap
  | [], s => Except.ok s
  | v :: vs, s =>
    match Storage.set key v db s with
    | Except.ok s1 => Storage.setMany key db vs s1
    | Except.error e => Except.error e

/-- An entry the modelled `Storage::set` accepts into the default
database: valid key name and valid value size. -/
def validEntry (e : SkateEntry) : Bool :=
  validName e.key && validValue e.value

/-- The per-entry loop of `EnvGenerator::restore_from_file` from
`env_gen.rs`, applied to the already-parsed entry list: each entry is fed
through `set(key, value)` against the default database; a failing `set` is
skipped; the returned count is the number of entries that succeeded. -/
def EnvGenerator.restore_entries (s : StoreMap) : List SkateEntry → StoreMap × Nat
  | [] => (s, 0)
  | e :: rest =>
    match Storage.set e.key e.value none s with
    | Except.ok s1 =>
      let r := EnvGenerator.restore_entries s1 rest
      (r.1, r.2 + 1)
    | Except.error _ => EnvGenerator.restore_entries s rest

/-- The projection map exactly as the spec's words describe it:
uppercase-ASCII-fold each letter, replace every `-` and every space with
`_`, pass every other character (non-ASCII included) through unchanged. -/
def specProjectChar (c : Char) : Char :=
  if 97 ≤ c.toNat ∧ c.toNat ≤ 122 then Char.ofNat (c.toNat - 32)
  else if c = '-' ∨ c = ' ' then '_'
  else c

/-- The key part of a `KEY=VALUE` line: everything before the first `=`. -/
def envLineKey (l : Str) : Str := l.takeWhile (fun c => c ≠ '=')

/-- The value part of a `KEY=VALUE` line: everything after the first `=`. -/
def envLineValue (l : Str) : Str := (l.dropWhile (fun c => c ≠ '=')).drop 1

/-- A last-assignment-wins reader of `KEY=VALUE` lines, as a consumer of
an .env file resolves a repeated identifier. -/
def envParse (lines : List Str) (k : Str) : Option Str :=
  lines.foldl (fun acc l => if envLineKey l = k then some (envLineValue l) else acc) none

/-- The empty store. -/
def demoStore0 : StoreMap := fun _ _ => none

/-- The store after a concrete successful `set`, for witnessing. -/
def demoStoreAfterSet : StoreMap :=
  match Storage.set ("k".data) ("v".data) none demoStore0 with
  | Except.ok s => s
  | Except.error _ => demoStore0

/-- The store after a concrete successful run of `setMany`, for
witnessing. -/
def demoStoreAfterSetMany : StoreMap :=
  match Storage.setMany ("k".data) none ["v1".data, "v2".data] demoStore0 with
  | Except.ok s => s
  | Except.error _ => demoStore0

/-- Two entries whose distinct original keys project to the same
identifier. -/
def demoCollideEntries : List SkateEntry :=
  [⟨"a-b".data, "1".data⟩, ⟨"a b".data, "2".data⟩]

/-- A one-entry store contents used in concrete evaluations. -/
def demoFooEntries : List SkateEntry := [⟨"foo".data, "bar".data⟩]

/-- An entry the modelled `Storage::set` rejects (its key contains `@`). -/
def demoBadEntry : SkateEntry := ⟨"a@b".data, "x".data⟩

/-- A filesystem that already holds an old file at the output path. -/
def demoFs : FileSys :=
  fun p => if p = ("out.env".data) then some ("OLD".data) else none

theorem replaceChar_append (p : Char) (r a b : Str) :
    replaceChar p r (a ++ b) = replaceChar p r a ++ replaceChar p r b := by
  induction a with
  | nil => rfl
  | cons c cs ih => simp [replaceChar, ih]

theorem length_le_replaceChar (p : Char) (r : Str) (hr : r ≠ []) (v : Str) :
    v.length ≤ (replaceChar p r v).length := by
  induction v with
  | nil => simp [replaceChar]
  | cons c cs ih =>
    have hr1 : 1 ≤ r.length := List.length_pos.mpr hr
    by_cases hc : c = p
    · simp only [replaceChar, if_pos hc, List.length_append, List.length_cons]
      omega
    · simp only [replaceChar, if_neg hc, List.length_append, List.length_cons,
        List.length_nil]
      omega

theorem replaceChar_of_not_mem (p : Char) (r : Str) (v : Str) (h : p ∉ v) :
    replaceChar p r v = v := by
  induction v with
  | nil => rfl
  | cons c cs ih =>
    have hc : c ≠ p := fun he => h (he ▸ List.mem_cons_self c cs)
    simp only [replaceChar, if_neg hc, List.singleton_append]
    exact congrArg (List.cons c) (ih (fun hm => h (List.mem_cons_of_mem c hm)))

theorem contains_iff_mem_chars (v : Str) (c : Char) :
    v.contains c = true ↔ c ∈ v := by
  simp [List.contains, List.elem_iff]

theorem quote_value_eq_self_iff (v : Str) :
    EnvGenerator.quote_value v = v ↔
      (v.contains ' ' || v.contains '\n' || v.contains '"') = false := by
  constructor
  · intro hqv
    cases hb : (v.contains ' ' || v.contains '\n' || v.contains '"') with
    | false => rfl
    | true =>
      exfalso
      have hq : EnvGenerator.quote_value v
          = '"' :: replaceChar '"' ['\\', '"'] v ++ ['"'] := by
        unfold EnvGenerator.quote_value
        rw [if_pos hb]
      rw [hq] at hqv
      have hlen := congrArg List.length hqv
      have hle := length_le_replaceChar '"' ['\\', '"'] (by simp) v
      simp [List.length_append] at hlen
      omega
  · intro hb
    unfold EnvGenerator.quote_value
    rw [if_neg (by simp at hb ⊢; exact hb)]

theorem quote_value_of_special (v : Str)
    (hb : (v.contains ' ' || v.contains '\n' || v.contains '"') = true) :
    EnvGenerator.quote_value v = '"' :: replaceChar '"' ['\\', '"'] v ++ ['"'] := by
  unfold EnvGenerator.quote_value
  rw [if_pos hb]

theorem quote_value_getLast?_ne_nl (v : Str) :
    (EnvGenerator.quote_value v).getLast? ≠ some '\n' := by
  cases hb : (v.contains ' ' || v.contains '\n' || v.contains '"') with
  | true =>
    rw [quote_value_of_special v hb]
    rw [show ('"' :: replaceChar '"' ['\\', '"'] v ++ ['"'])
        = ('"' :: replaceChar '"' ['\\', '"'] v) ++ ['"'] from rfl]
    rw [List.getLast?_concat]
    simp
  | false =>
    rw [(quote_value_eq_self_iff v).mpr hb]
    intro hl
    have hm : '\n' ∈ v := List.mem_of_mem_getLast? hl
    simp at hb
    exact hb.1.2 hm

theorem envLine_getLast?_ne_nl (e : SkateEntry) :
    (EnvGenerator.envLine e).getLast? ≠ some '\n' := by
  unfold EnvGenerator.envLine
  rw [List.getLast?_append]
  cases hq : EnvGenerator.quote_value e.value with
  | nil => simp [Option.or]
  | cons x xs =>
    rw [List.getLast?_cons_cons]
    have h1 := quote_value_getLast?_ne_nl e.value
    rw [hq] at h1
    cases hL : (x :: xs).getLast? with
    | none => simp [List.getLast?_eq_none_iff] at hL
    | some c =>
      rw [hL] at h1
      simp [Option.or]
      intro hc
      exact h1 (by rw [hc])

theorem entries_to_env_format_cons (e : SkateEntry) (rest : List SkateEntry) :
    EnvGenerator.entries_to_env_format (e :: rest) =
      EnvGenerator.envLine e ++
        (if rest.isEmpty then []
         else '\n' :: EnvGenerator.entries_to_env_format rest) := by
  cases rest with
  | nil => simp [EnvGenerator.entries_to_env_format, joinNl]
  | cons e2 r2 => simp [EnvGenerator.entries_to_env_format, joinNl]

theorem envLine_ne_nil (e : SkateEntry) : EnvGenerator.envLine e ≠ [] := by
  unfold EnvGenerator.envLine
  simp

theorem entries_to_env_format_ne_nil (es : List SkateEntry) (h : es ≠ []) :
    EnvGenerator.entries_to_env_format es ≠ [] := by
  cases es with
  | nil => exact absurd rfl h
  | cons e rest =>
    rw [entries_to_env_format_cons]
    intro hc
    exact envLine_ne_nil e (List.append_eq_nil.mp hc).1

theorem format_getLast?_ne_nl (es : List SkateEntry) :
    (EnvGenerator.entries_to_env_format es).getLast? ≠ some '\n' := by
  induction es with
  | nil => simp [EnvGenerator.entries_to_env_format, joinNl]
  | cons e rest ih =>
    rw [entries_to_env_format_cons]
    cases rest with
    | nil => simpa using envLine_getLast?_ne_nl e
    | cons e2 r2 =>
      rw [if_neg (by simp : ¬((e2 :: r2 : List SkateEntry).isEmpty = true))]
      rw [List.getLast?_append]
      cases hF : EnvGenerator.entries_to_env_format (e2 :: r2) with
      | nil => exact absurd hF (entries_to_env_format_ne_nil _ (by simp))
      | cons x xs =>
        rw [List.getLast?_cons_cons]
        rw [hF] at ih
        cases hL : (x :: xs).getLast? with
        | none => simp [List.getLast?_eq_none_iff] at hL
        | some c =>
          rw [hL] at ih
          simp [Option.or]
          intro hc
          exact ih (by rw [hc])

/-- C1: for every value, the .env projection emits the value bare exactly
when it contains no space, newline or double quote, and otherwise emits it
wrapped in double quotes with inner double quotes replaced by
backslash-double-quote and every other character passed through; the full
output is the KEY=VALUE lines joined by single newlines, with no trailing
newline. -/
theorem env_format_quoting (v : Str) (es : List SkateEntry)
    (e : SkateEntry) (rest : List SkateEntry) :
    (EnvGenerator.quote_value v = v ↔
      (v.contains ' ' || v.contains '\n' || v.contains '"') = false)
    ∧ ((v.contains ' ' || v.contains '\n' || v.contains '"') = true →
        EnvGenerator.quote_value v = '"' :: replaceChar '"' ['\\', '"'] v ++ ['"'])
    ∧ EnvGenerator.entries_to_env_format (e :: rest) =
        EnvGenerator.envLine e ++
          (if rest.isEmpty then []
           else '\n' :: EnvGenerator.entries_to_env_format rest)
    ∧ (EnvGenerator.entries_to_env_format es).getLast? ≠ some '\n' :=
  ⟨quote_value_eq_self_iff v, quote_value_of_special v,
    entries_to_env_format_cons e rest, format_getLast?_ne_nl es⟩

/-- Witness for C1 at a concrete special value. -/
theorem env_format_quoting_witness :
    EnvGenerator.quote_value ("a b".data)
      = '"' :: replaceChar '"' ['\\', '"'] ("a b".data) ++ ['"'] :=
  (env_format_quoting ("a b".data) demoFooEntries ⟨"foo".data, "bar".data⟩
    []).2.1 (by decide)

theorem escapeDq_eq_nil_imp (v : Str)
    (h : replaceChar '"' ['\\', '"'] v = []) : v = [] := by
  cases v with
  | nil => rfl
  | cons c cs =>
    exfalso
    simp only [replaceChar] at h
    by_cases hc : c = '"'
    · rw [if_pos hc] at h
      simp at h
    · rw [if_neg hc] at h
      simp at h

theorem escapeDq_head_ne (v : Str) (x : Char) (xs : Str)
    (h : replaceChar '"' ['\\', '"'] v = x :: xs) : x ≠ '"' := by
  cases v with
  | nil => simp [replaceChar] at h
  | cons c cs =>
    simp only [replaceChar] at h
    by_cases hc : c = '"'
    · rw [if_pos hc] at h
      simp at h
      rw [← h.1]
      decide
    · rw [if_neg hc] at h
      simp at h
      rw [← h.1]
      exact hc

theorem unescape_escape (v : Str) :
    unescapeDq (replaceChar '"' ['\\', '"'] v) = v := by
  induction v with
  | nil => rfl
  | cons c cs ih =>
    simp only [replaceChar]
    by_cases hc : c = '"'
    · subst hc
      rw [if_pos rfl]
      simp only [List.cons_append, List.nil_append]
      rw [unescapeDq]
      rw [if_pos ⟨rfl, rfl⟩]
      rw [ih]
    · rw [if_neg hc, List.singleton_append]
      cases hr : replaceChar '"' ['\\', '"'] cs with
      | nil =>
        have : cs = [] := escapeDq_eq_nil_imp _ hr
        subst this
        rfl
      | cons x xs =>
        have hx : x ≠ '"' := escapeDq_head_ne cs x xs hr
        rw [unescapeDq]
        rw [if_neg (by intro hand; exact hx hand.2)]
        rw [← hr, ih]

/-- C5: for every newline-free value, the standard KEY="VALUE" value
parsing rule recovers the value from its .env projection; the quoting
performed by `quote_value` is reversible. -/
theorem quote_value_reversible (v : Str) (hnl : '\n' ∉ v) :
    parseEnvValue (EnvGenerator.quote_value v) = v := by
  cases hb : (v.contains ' ' || v.contains '\n' || v.contains '"') with
  | false =>
    rw [(quote_value_eq_self_iff v).mpr hb]
    have hq : '"' ∉ v := by
      simp at hb
      exact hb.2
    cases hv : v with
    | nil => rfl
    | cons c cs =>
      cases cs with
      | nil => rfl
      | cons c2 cs2 =>
        have hc : c ≠ '"' := by
          intro h
          rw [hv] at hq
          exact hq (h ▸ List.mem_cons_self _ _)
        simp only [parseEnvValue]
        rw [if_neg (fun hand => hc hand.1)]
  | true =>
    rw [quote_value_of_special v hb]
    have hvne : v ≠ [] := by
      intro h
      subst h
      simp at hb
    cases hr : replaceChar '"' ['\\', '"'] v with
    | nil => exact absurd (escapeDq_eq_nil_imp _ hr) hvne
    | cons x xs =>
      simp only [List.cons_append, parseEnvValue]
      rw [if_pos ⟨by trivial, by
        rw [show x :: (xs ++ ['"']) = (x :: xs) ++ ['"'] from rfl,
          List.getLast?_concat]⟩]
      rw [show x :: (xs ++ ['"']) = (x :: xs) ++ ['"'] from rfl,
        List.dropLast_concat]
      rw [← hr, unescape_escape]

/-- Witness for C5 at a concrete value containing quotes and spaces. -/
theorem quote_value_reversible_witness :
    parseEnvValue (EnvGenerator.quote_value ("say \"hi\" now".data))
      = ("say \"hi\" now".data) :=
  quote_value_reversible ("say \"hi\" now".data) (by decide)

theorem sq_escape_length (v : Str) :
    (replaceChar sqc [sqc, '\\', sqc, sqc] v).length
      = v.length + 3 * v.countP (fun c => c == sqc) := by
  induction v with
  | nil => rfl
  | cons c cs ih =>
    simp only [replaceChar, List.length_append, List.countP_cons, ih]
    by_cases hc : c = sqc
    · rw [if_pos hc]
      simp [hc]
      omega
    · rw [if_neg hc]
      have hbeq : (c == sqc) = false := by simp [hc]
      simp [hbeq]
      omega

theorem shell_escape_no_quote (v : Str) (h : v.contains sqc = false) :
    EnvGenerator.shell_escape v = sqc :: v ++ [sqc] := by
  unfold EnvGenerator.shell_escape
  rw [replaceChar_of_not_mem sqc [sqc, '\\', sqc, sqc] v
    (fun hm => by rw [(contains_iff_mem_chars v sqc).mpr hm] at h; exact Bool.noConfusion h)]

/-- C4: the shell export projection emits, for each entry, the line
`export KEY='V'` where `V` is the value with every single quote replaced
by the four-character sequence quote-backslash-quote-quote; a value with no
single quote is passed through unaltered inside the quotes, and in general
the escaped body grows by exactly three characters per single quote, so no
other character is altered. -/
theorem export_line_shape (e : SkateEntry) (v : Str) :
    EnvGenerator.export_line e
      = "export ".data ++ normKey e.key ++ '=' :: EnvGenerator.shell_escape e.value
    ∧ EnvGenerator.shell_escape v
        = sqc :: replaceChar sqc [sqc, '\\', sqc, sqc] v ++ [sqc]
    ∧ (v.contains sqc = false → EnvGenerator.shell_escape v = sqc :: v ++ [sqc])
    ∧ (replaceChar sqc [sqc, '\\', sqc, sqc] v).length
        = v.length + 3 * v.countP (fun c => c == sqc) :=
  ⟨rfl, rfl, shell_escape_no_quote v, sq_escape_length v⟩

/-- Witness for C4 at a concrete quote-free value. -/
theorem export_line_shape_witness :
    EnvGenerator.shell_escape ("abc".data) = sqc :: ("abc".data) ++ [sqc] :=
  (export_line_shape ⟨"k".data, "v".data⟩ ("abc".data)).2.2.1 (by decide)

theorem shUnquote_enter (X : Str) :
    shUnquote ShState.outQ (sqc :: X) = shUnquote ShState.inQ X := rfl

theorem shUnquote_close (X : Str) :
    shUnquote ShState.inQ (sqc :: X) = shUnquote ShState.outQ X := rfl

theorem shUnquote_escaped_quote (X : Str) :
    shUnquote ShState.inQ (sqc :: '\\' :: sqc :: sqc :: X)
      = (shUnquote ShState.inQ X).map (fun t => sqc :: t) := rfl

theorem shUnquote_lit (c : Char) (X : Str) (hc : c ≠ sqc) :
    shUnquote ShState.inQ (c :: X)
      = (shUnquote ShState.inQ X).map (fun t => c :: t) := by
  simp [shUnquote, hc]

theorem shUnquote_body (v rest : Str) :
    shUnquote ShState.inQ (replaceChar sqc [sqc, '\\', sqc, sqc] v ++ sqc :: rest)
      = (shUnquote ShState.outQ rest).map (fun t => v ++ t) := by
  induction v with
  | nil =>
    rw [show replaceChar sqc [sqc, '\\', sqc, sqc] [] = [] from rfl,
      List.nil_append, shUnquote_close]
    cases shUnquote ShState.outQ rest <;> rfl
  | cons c cs ih =>
    simp only [replaceChar]
    by_cases hc : c = sqc
    · subst hc
      rw [if_pos rfl]
      rw [show ([sqc, '\\', sqc, sqc] ++ replaceChar sqc [sqc, '\\', sqc, sqc] cs)
            ++ sqc :: rest
          = sqc :: '\\' :: sqc :: sqc ::
            (replaceChar sqc [sqc, '\\', sqc, sqc] cs ++ sqc :: rest) by simp]
      rw [shUnquote_escaped_quote, ih]
      cases shUnquote ShState.outQ rest <;> rfl
    · rw [if_neg hc]
      rw [show ([c] ++ replaceChar sqc [sqc, '\\', sqc, sqc] cs) ++ sqc :: rest
          = c :: (replaceChar sqc [sqc, '\\', sqc, sqc] cs ++ sqc :: rest) by simp]
      rw [shUnquote_lit c _ hc, ih]
      cases shUnquote ShState.outQ rest <;> rfl

/-- C6: evaluating the emitted `export KEY='V'` line under POSIX shell
single-quoting semantics (quoted segments literal, quote-backslash-quote-
quote denoting one single quote joining adjacent segments) assigns to the
identifier exactly the original value, for every value, including values
with newlines, backslashes and quotes. -/
theorem export_shell_posix_roundtrip (e : SkateEntry) :
    shUnquote ShState.outQ (EnvGenerator.shell_escape e.value) = some e.value
    ∧ EnvGenerator.export_line e
      = "export ".data ++ normKey e.key
          ++ '=' :: EnvGenerator.shell_escape e.value := by
  refine ⟨?_, rfl⟩
  unfold EnvGenerator.shell_escape
  rw [show (sqc :: replaceChar sqc [sqc, '\\', sqc, sqc] e.value ++ [sqc])
      = sqc :: (replaceChar sqc [sqc, '\\', sqc, sqc] e.value ++ sqc :: [])
      from rfl]
  rw [shUnquote_enter, shUnquote_body]
  simp [shUnquote]

theorem strToUpper_append (a b : Str) :
    strToUpper (a ++ b) = strToUpper a ++ strToUpper b := by
  unfold strToUpper
  rw [List.map_append, List.flatten_append]

theorem normKey_append (a b : Str) :
    normKey (a ++ b) = normKey a ++ normKey b := by
  unfold normKey
  rw [strToUpper_append, replaceChar_append, replaceChar_append]

theorem normKey_ascii_char :
    ∀ n : Nat, n < 128 →
      normKey [Char.ofNat n] = [specProjectChar (Char.ofNat n)] := by decide

/-- C2 (amended): on keys made of ASCII characters only, the projected
identifier is the ASCII uppercase fold with `-` and space replaced by `_`
and every other character unchanged; for non-ASCII letters the code applies
the full Unicode uppercase map instead of passing them through. -/
theorem normKey_ascii_projection (k : Str) (h : ∀ c ∈ k, c.toNat < 128) :
    normKey k = k.map specProjectChar := by
  induction k with
  | nil => rfl
  | cons c cs ih =>
    rw [show (c :: cs : Str) = [c] ++ cs from rfl, normKey_append]
    have hc : c.toNat < 128 := h c (List.mem_cons_self c cs)
    have h2 := normKey_ascii_char c.toNat hc
    rw [Char.ofNat_toNat] at h2
    rw [h2, ih (fun x hx => h x (List.mem_cons_of_mem c hx))]
    rfl

/-- C2 counterexample: the non-ASCII letter `é` does not pass through the
projection unchanged — the code uppercases it to `É`, while the claimed
ASCII-only fold would leave it alone. -/
theorem normKey_not_ascii_passthrough :
    normKey ['é'] = ['É']
    ∧ (['é'] : Str).map specProjectChar = ['é']
    ∧ normKey ['é'] ≠ (['é'] : Str).map specProjectChar := by decide

/-- Witness for C2 (amended) at a concrete ASCII key. -/
theorem normKey_ascii_projection_witness :
    normKey ("api-key 2".data) = ("api-key 2".data).map specProjectChar :=
  normKey_ascii_projection ("api-key 2".data) (by decide)

theorem envLine_split (k v : Str) (hk : '=' ∉ k) :
    envLineKey (k ++ '=' :: v) = k ∧ envLineValue (k ++ '=' :: v) = v := by
  induction k with
  | nil =>
    constructor
    · simp [envLineKey, List.takeWhile_cons]
    · simp [envLineValue, List.dropWhile_cons]
  | cons c cs ih =>
    have hc : c ≠ '=' := fun h => hk (h ▸ List.mem_cons_self _ _)
    have ih2 := ih (fun hm => hk (List.mem_cons_of_mem c hm))
    constructor
    · show envLineKey (c :: (cs ++ '=' :: v)) = c :: cs
      unfold envLineKey
      rw [List.takeWhile_cons]
      rw [if_pos (by simp [hc])]
      exact congrArg (List.cons c) ih2.1
    · show envLineValue (c :: (cs ++ '=' :: v)) = v
      unfold envLineValue
      rw [List.dropWhile_cons]
      rw [if_pos (by simp [hc])]
      exact ih2.2

theorem envParse_foldl_eq (K : Str) (es : List SkateEntry) (acc : Option Str)
    (h : ∀ e ∈ es, '=' ∉ normKey e.key) :
    (es.map EnvGenerator.envLine).foldl
        (fun acc l => if envLineKey l = K then some (envLineValue l) else acc) acc
      = es.foldl
        (fun acc e => if normKey e.key = K
          then some (EnvGenerator.quote_value e.value) else acc) acc := by
  induction es generalizing acc with
  | nil => rfl
  | cons e rest ih =>
    simp only [List.map_cons, List.foldl_cons]
    have hk := envLine_split (normKey e.key) (EnvGenerator.quote_value e.value)
      (h e (List.mem_cons_self _ _))
    rw [show EnvGenerator.envLine e
        = normKey e.key ++ '=' :: EnvGenerator.quote_value e.value from rfl]
    rw [hk.1, hk.2]
    exact ih _ (fun x hx => h x (List.mem_cons_of_mem _ hx))

/-- C3 (amended): the projection emits one KEY=VALUE line per entry (an
identifier repeated by a collision appears once per colliding entry, not
once in total), and a last-assignment-wins reader of those lines resolves
every identifier to the value of the later entry in input order, as long as
no normalized key contains `=`. -/
theorem envParse_last_wins (es : List SkateEntry) (K : Str)
    (h : ∀ e ∈ es, '=' ∉ normKey e.key) :
    envParse (es.map EnvGenerator.envLine) K
      = es.foldl (fun acc e => if normKey e.key = K
          then some (EnvGenerator.quote_value e.value) else acc) none
    ∧ (es.map EnvGenerator.envLine).length = es.length :=
  ⟨envParse_foldl_eq K es none h, by simp⟩

/-- C3 counterexample: the distinct keys a-b and a b collide on A_B; the
.env output then contains the identifier once per entry — twice, not
exactly once. -/
theorem env_collision_not_single :
    normKey ("a-b".data) = normKey ("a b".data)
    ∧ ("a-b".data : Str) ≠ ("a b".data)
    ∧ EnvGenerator.entries_to_env_format demoCollideEntries
        = ("A_B=1\nA_B=2".data)
    ∧ (demoCollideEntries.map EnvGenerator.envLine).countP
        (fun l => envLineKey l == normKey ("a-b".data)) = 2
    ∧ ¬ ((demoCollideEntries.map EnvGenerator.envLine).countP
        (fun l => envLineKey l == normKey ("a-b".data)) = 1) := by decide

/-- Witness for C3 (amended): the later colliding entry wins under a
last-assignment-wins reader. -/
theorem envParse_last_wins_witness :
    envParse (demoCollideEntries.map EnvGenerator.envLine) ("A_B".data)
      = some ("2".data) :=
  ((envParse_last_wins demoCollideEntries ("A_B".data) (by decide)).1).trans
    (by decide)

theorem storage_set_ok_get (key value : Str) (db : Option Str)
    (s s1 : StoreMap) (h : Storage.set key value db s = Except.ok s1) :
    Storage.get key db s1 = some value := by
  simp only [Storage.set] at h
  by_cases h1 : (validName key && validName (dbOrDefault db)) = true
  · rw [if_pos h1] at h
    by_cases h2 : validValue value = true
    · rw [if_pos h2] at h
      injection h with h3
      rw [← h3]
      unfold Storage.get
      simp
    · rw [if_neg h2] at h
      exact Except.noConfusion h
  · rw [if_neg h1] at h
    exact Except.noConfusion h

theorem storage_setMany_ok_get (key : Str) (db : Option Str) (vs : List Str)
    (s s2 : StoreMap) (hne : vs ≠ [])
    (h : Storage.setMany key db vs s = Except.ok s2) :
    Storage.get key db s2 = vs.getLast? := by
  induction vs generalizing s with
  | nil => exact absurd rfl hne
  | cons v rest ih =>
    simp only [Storage.setMany] at h
    cases hset : Storage.set key v db s with
    | error err =>
      rw [hset] at h
      exact Except.noConfusion h
    | ok s1 =>
      rw [hset] at h
      cases rest with
      | nil =>
        simp only [Storage.setMany] at h
        injection h with h3
        rw [show (([v] : List Str)).getLast? = some v from rfl]
        rw [← h3]
        exact storage_set_ok_get key v db s s1 hset
      | cons v2 rest2 =>
        rw [List.getLast?_cons_cons]
        exact ih s1 (by simp) h

/-- C7: after a successful `set(k, v, d)` the immediately following
`get(k, d)` returns exactly `v`, with no normalization; and after any
non-empty sequence of successful `set` operations on the same key and
database, `get` returns the value of the last `set`.  (The storage engine
is modelled from the spec, its source file being absent.) -/
theorem storage_get_after_set (key value : Str) (db : Option Str)
    (s s1 : StoreMap) (vs : List Str) (t t2 : StoreMap) :
    (Storage.set key value db s = Except.ok s1 →
      Storage.get key db s1 = some value)
    ∧ (vs ≠ [] → Storage.setMany key db vs t = Except.ok t2 →
      Storage.get key db t2 = vs.getLast?) :=
  ⟨storage_set_ok_get key value db s s1,
    fun hne h => storage_setMany_ok_get key db vs t t2 hne h⟩

/-- Witness for C7 at a concrete key, value and value sequence. -/
theorem storage_get_after_set_witness :
    Storage.get ("k".data) none demoStoreAfterSet = some ("v".data)
    ∧ Storage.get ("k".data) none demoStoreAfterSetMany = some ("v2".data) := by
  constructor
  · exact (storage_get_after_set ("k".data) ("v".data) none demoStore0
      demoStoreAfterSet [] demoStore0 demoStore0).1 rfl
  · exact ((storage_get_after_set ("k".data) ("x".data) none demoStore0
      demoStore0 ["v1".data, "v2".data] demoStore0 demoStoreAfterSetMany).2
      (by decide) rfl).trans rfl

theorem validName_defaultDb : validName defaultDb = true := by decide

theorem set_none_of_valid (e : SkateEntry) (s : StoreMap)
    (h : validEntry e = true) :
    Storage.set e.key e.value none s
      = Except.ok (fun d' k' =>
          if d' = defaultDb ∧ k' = e.key then some e.value else s d' k') := by
  unfold validEntry at h
  simp only [Bool.and_eq_true] at h
  unfold Storage.set
  rw [show dbOrDefault none = defaultDb from rfl]
  rw [if_pos (by rw [h.1, validName_defaultDb]; rfl)]
  rw [if_pos h.2]

theorem set_none_of_invalid (e : SkateEntry) (s : StoreMap)
    (h : validEntry e = false) :
    Storage.set e.key e.value none s = Except.error
      (if validName e.key = true then StorageError.valueTooLarge
       else StorageError.invalidName) := by
  unfold validEntry at h
  unfold Storage.set
  rw [show dbOrDefault none = defaultDb from rfl]
  cases hk : validName e.key with
  | false =>
    rw [if_neg (by simp [hk])]
    rw [if_neg (by simp [hk])]
  | true =>
    have hv : validValue e.value = false := by
      rw [hk] at h
      simpa using h
    rw [if_pos (by simp [hk, validName_defaultDb])]
    rw [if_neg (by simp [hv])]
    rfl

theorem restore_entries_count (s : StoreMap) (es : List SkateEntry) :
    (EnvGenerator.restore_entries s es).2 = es.countP validEntry := by
  induction es generalizing s with
  | nil => rfl
  | cons e rest ih =>
    simp only [EnvGenerator.restore_entries]
    cases hv : validEntry e with
    | true =>
      rw [set_none_of_valid e s hv]
      rw [List.countP_cons]
      simp [hv, ih]
    | false =>
      rw [set_none_of_invalid e s hv]
      rw [List.countP_cons]
      simp [hv, ih]

theorem restore_entries_skip (s : StoreMap) (es1 es2 : List SkateEntry)
    (bad : SkateEntry) (hbad : validEntry bad = false) :
    EnvGenerator.restore_entries s (es1 ++ bad :: es2)
      = EnvGenerator.restore_entries s (es1 ++ es2) := by
  induction es1 generalizing s with
  | nil =>
    simp only [List.nil_append]
    simp only [EnvGenerator.restore_entries]
    rw [set_none_of_invalid bad s hbad]
  | cons e r ih =>
    simp only [List.cons_append]
    simp only [EnvGenerator.restore_entries]
    cases hset : Storage.set e.key e.value none s with
    | ok s1 =>
      show ((EnvGenerator.restore_entries s1 (r ++ bad :: es2)).1,
            (EnvGenerator.restore_entries s1 (r ++ bad :: es2)).2 + 1)
          = ((EnvGenerator.restore_entries s1 (r ++ es2)).1,
             (EnvGenerator.restore_entries s1 (r ++ es2)).2 + 1)
      rw [ih s1]
    | error err =>
      show EnvGenerator.restore_entries s (r ++ bad :: es2)
          = EnvGenerator.restore_entries s (r ++ es2)
      exact ih s

theorem restore_entries_other_db (s : StoreMap) (es : List SkateEntry)
    (d k : Str) (hd : d ≠ defaultDb) :
    (EnvGenerator.restore_entries s es).1 d k = s d k := by
  induction es generalizing s with
  | nil => rfl
  | cons e rest ih =>
    simp only [EnvGenerator.restore_entries]
    cases hv : validEntry e with
    | true =>
      rw [set_none_of_valid e s hv]
      exact (ih _).trans (by rw [if_neg (fun hand => hd hand.1)])
    | false =>
      rw [set_none_of_invalid e s hv]
      exact ih s

/-- C8: the restore loop feeds every parsed entry through `set` against the
default database; its reported count is exactly the number of entries whose
`set` succeeded, a failing entry is skipped without aborting the remaining
entries, and no database other than `default` is touched.  (`Storage::set`
is modelled from the spec, its source file being absent; a `set` succeeds
exactly on valid key names and value sizes.) -/
theorem restore_entries_spec (s : StoreMap) (es es1 es2 : List SkateEntry)
    (bad : SkateEntry) (d k : Str) :
    (EnvGenerator.restore_entries s es).2 = es.countP validEntry
    ∧ (validEntry bad = false →
        EnvGenerator.restore_entries s (es1 ++ bad :: es2)
          = EnvGenerator.restore_entries s (es1 ++ es2))
    ∧ (d ≠ defaultDb → (EnvGenerator.restore_entries s es).1 d k = s d k) :=
  ⟨restore_entries_count s es,
    fun h => restore_entries_skip s es1 es2 bad h,
    fun h => restore_entries_other_db s es d k h⟩

/-- Witness for C8: a failing entry is skipped, the count ignores it, and
a foreign database is untouched. -/
theorem restore_entries_spec_witness :
    EnvGenerator.restore_entries demoStore0
        ([⟨"foo".data, "bar".data⟩] ++ demoBadEntry :: [])
      = EnvGenerator.restore_entries demoStore0 ([⟨"foo".data, "bar".data⟩] ++ [])
    ∧ (EnvGenerator.restore_entries demoStore0
        [⟨"foo".data, "bar".data⟩, demoBadEntry]).2 = 1
    ∧ (EnvGenerator.restore_entries demoStore0
        [⟨"foo".data, "bar".data⟩]).1 ("other".data) ("foo".data) = none := by
  refine ⟨?_, ?_, ?_⟩
  · exact (restore_entries_spec demoStore0 [] [⟨"foo".data, "bar".data⟩] []
      demoBadEntry ("x".data) ("y".data)).2.1 (by decide)
  · exact ((restore_entries_spec demoStore0
      [⟨"foo".data, "bar".data⟩, demoBadEntry] [] [] demoBadEntry
      ("x".data) ("y".data)).1).trans (by decide)
  · exact (restore_entries_spec demoStore0 [⟨"foo".data, "bar".data⟩] [] []
      demoBadEntry ("other".data) ("foo".data)).2.2 (by decide)

theorem joinNl_append (xs ys : List Str) (hx : xs ≠ []) (hy : ys ≠ []) :
    joinNl (xs ++ ys) = joinNl xs ++ '\n' :: joinNl ys := by
  induction xs with
  | nil => exact absurd rfl hx
  | cons x xt ih =>
    cases xt with
    | nil =>
      cases ys with
      | nil => exact absurd rfl hy
      | cons y yt =>
        simp only [List.singleton_append, joinNl]
    | cons x2 xt2 =>
      simp only [List.cons_append]
      rw [show joinNl (x :: x2 :: (xt2 ++ ys))
          = x ++ '\n' :: joinNl (x2 :: (xt2 ++ ys)) from rfl]
      rw [show (x2 :: (xt2 ++ ys) : List Str) = (x2 :: xt2) ++ ys from rfl]
      rw [ih (by simp)]
      rw [show joinNl (x :: x2 :: xt2) = x ++ '\n' :: joinNl (x2 :: xt2) from rfl]
      simp [List.append_assoc]

theorem printedText_eq_joinNl (ls : List Str) (h : ls ≠ []) :
    printedText ls = joinNl ls ++ ['\n'] := by
  induction ls with
  | nil => exact absurd rfl h
  | cons l rest ih =>
    cases rest with
    | nil => simp [printedText, joinNl]
    | cons l2 r2 =>
      show (l ++ ['\n']) ++ printedText (l2 :: r2)
          = joinNl (l :: l2 :: r2) ++ ['\n']
      rw [ih (by simp)]
      rw [show joinNl (l :: l2 :: r2) = l ++ '\n' :: joinNl (l2 :: r2) from rfl]
      simp [List.append_assoc]

/-- C9 (amended): when at least one entry survives the filter, the text
printed by the preview is exactly the text `.env` generation would write
for the same entries and filter (same lines, same order, same quoting),
but surrounded by a header line, blank lines and a count footer; when no
entry matches, the preview prints a warning instead of emitting the empty
.env text. -/
theorem show_preview_text (es es0 : List SkateEntry) (fl fl0 : Option Str) :
    (applyFilter fl es ≠ [] →
      printedText (EnvGenerator.show_preview_lines es fl)
        = previewHeaderStr ++ '\n' :: '\n' ::
            (EnvGenerator.entries_to_env_format (applyFilter fl es)
              ++ '\n' :: '\n' ::
                (infoLineStr (applyFilter fl es).length ++ ['\n'])))
    ∧ (applyFilter fl0 es0 = [] →
        EnvGenerator.show_preview_lines es0 fl0 = [noEntriesStr]) := by
  constructor
  · intro h
    have hne : (applyFilter fl es).isEmpty = false := by
      cases hf : applyFilter fl es with
      | nil => exact absurd hf h
      | cons a b => rfl
    simp only [EnvGenerator.show_preview_lines]
    rw [hne]
    simp only [Bool.false_eq_true, if_false]
    have hmapne : (applyFilter fl es).map EnvGenerator.envLine ≠ [] := by
      cases hf : applyFilter fl es with
      | nil => exact absurd hf h
      | cons a b => simp
    rw [printedText_eq_joinNl _ (by simp)]
    rw [show (previewHeaderStr :: [] ::
          (applyFilter fl es).map EnvGenerator.envLine ++ ([] :: [infoLineStr (applyFilter fl es).length]))
        = previewHeaderStr :: [] ::
          ((applyFilter fl es).map EnvGenerator.envLine ++ ([] :: [infoLineStr (applyFilter fl es).length]))
        from rfl]
    rw [show joinNl (previewHeaderStr :: [] ::
          ((applyFilter fl es).map EnvGenerator.envLine ++ ([] :: [infoLineStr (applyFilter fl es).length])))
        = previewHeaderStr ++ '\n' :: joinNl ([] ::
          ((applyFilter fl es).map EnvGenerator.envLine ++ ([] :: [infoLineStr (applyFilter fl es).length])))
        from rfl]
    rw [show ([] :: ((applyFilter fl es).map EnvGenerator.envLine
            ++ ([] :: [infoLineStr (applyFilter fl es).length])) : List Str)
        = [([] : Str)] ++ ((applyFilter fl es).map EnvGenerator.envLine
            ++ ([] :: [infoLineStr (applyFilter fl es).length])) from rfl]
    rw [joinNl_append [([] : Str)] _ (by simp) (by simp [hmapne])]
    rw [joinNl_append _ ([] :: [infoLineStr (applyFilter fl es).length]) hmapne (by simp)]
    rw [show joinNl ([] :: [infoLineStr (applyFilter fl es).length])
        = [] ++ '\n' :: joinNl [infoLineStr (applyFilter fl es).length] from rfl]
    rw [show joinNl [infoLineStr (applyFilter fl es).length]
        = infoLineStr (applyFilter fl es).length from rfl]
    rw [show joinNl [([] : Str)] = ([] : Str) from rfl]
    show (previewHeaderStr ++ '\n' :: (([] : Str) ++ '\n' ::
        (EnvGenerator.entries_to_env_format (applyFilter fl es)
          ++ '\n' :: ([] ++ '\n' :: infoLineStr (applyFilter fl es).length)))) ++ ['\n']
      = _
    simp [List.append_assoc]
  · intro h
    simp only [EnvGenerator.show_preview_lines]
    rw [h]
    rfl

/-- C9 counterexample: for a one-entry store with no filter, the preview's
printed text differs from the .env file text (it carries a header and a
count footer). -/
theorem preview_text_ne_env_text :
    printedText (EnvGenerator.show_preview_lines demoFooEntries none)
      ≠ EnvGenerator.entries_to_env_format (applyFilter none demoFooEntries) := by
  decide

/-- Witness for C9 (amended) at a concrete store, for both a surviving
filter and an eliminating filter. -/
theorem show_preview_text_witness :
    printedText (EnvGenerator.show_preview_lines demoFooEntries none)
      = previewHeaderStr ++ '\n' :: '\n' ::
          (EnvGenerator.entries_to_env_format (applyFilter none demoFooEntries)
            ++ '\n' :: '\n' ::
              (infoLineStr (applyFilter none demoFooEntries).length ++ ['\n']))
    ∧ EnvGenerator.show_preview_lines demoFooEntries (some ("zz".data))
        = [noEntriesStr] :=
  ⟨(show_preview_text demoFooEntries demoFooEntries none
      (some ("zz".data))).1 (by decide),
    (show_preview_text demoFooEntries demoFooEntries none
      (some ("zz".data))).2 (by decide)⟩

theorem env_format_nil_iff (es : List SkateEntry) :
    EnvGenerator.entries_to_env_format es = [] ↔ es = [] := by
  constructor
  · intro h
    cases es with
    | nil => rfl
    | cons e rest => exact absurd h (entries_to_env_format_ne_nil _ (by simp))
  · intro h
    subst h
    rfl

/-- C10: `.env` generation always writes the output file — the new
filesystem maps the output path to the rendered text whatever it held
before; when no entry survives the filter the written content is the empty
string and the reported count is 0, and the content is empty only in that
case. -/
theorem generate_env_file_always_writes (es : List SkateEntry) (path : Str)
    (fl : Option Str) (fs : FileSys) :
    (EnvGenerator.generate_env_file es path fl fs).1 path
      = some (EnvGenerator.entries_to_env_format (applyFilter fl es))
    ∧ (EnvGenerator.generate_env_file es path fl fs).2
      = (applyFilter fl es).length
    ∧ (applyFilter fl es = [] →
        (EnvGenerator.generate_env_file es path fl fs).1 path = some []
        ∧ (EnvGenerator.generate_env_file es path fl fs).2 = 0)
    ∧ (EnvGenerator.entries_to_env_format (applyFilter fl es) = []
        ↔ applyFilter fl es = []) := by
  refine ⟨?_, rfl, ?_, env_format_nil_iff _⟩
  · simp [EnvGenerator.generate_env_file]
  · intro h
    constructor
    · simp [EnvGenerator.generate_env_file, h, EnvGenerator.entries_to_env_format,
        joinNl]
    · simp [EnvGenerator.generate_env_file, h]

/-- Witness for C10: with a filter matching nothing and an old file
present, the generator still writes, replacing the old contents with the
empty string and reporting a count of 0. -/
theorem generate_env_file_always_writes_witness :
    (EnvGenerator.generate_env_file demoFooEntries ("out.env".data)
        (some ("zz".data)) demoFs).1 ("out.env".data) = some []
    ∧ (EnvGenerator.generate_env_file demoFooEntries ("out.env".data)
        (some ("zz".data)) demoFs).2 = 0 :=
  (generate_env_file_always_writes demoFooEntries ("out.env".data)
    (some ("zz".data)) demoFs).2.2.1 (by decide)
